import Mathlib

/-!
Verification of the keychain account module (src/keychain/models/keychain.py).

The development shallowly embeds the module: the external key-value
configuration source, the Fernet/MultiFernet authenticated-encryption
collaborator (cryptography.fernet) and the json library are modelled by
executable Lean definitions that follow their documented contracts; every
function of the module itself (retrieve, write, _check_data, _validate_data,
_init_data, _retrieve_env, _serialize_data, _parse_data, _encode_password,
_decode_password, _get_password, _get_cipher) is translated directly from the
source. Leading underscores of Python names are dropped.
-/

namespace Keychain

/-- Left brace character, written numerically. -/
def lbrace : Char := Char.ofNat 123

/-- Right brace character, written numerically. -/
def rbrace : Char := Char.ofNat 125

/-! JSON values as produced by json.loads: null, booleans, (integer) numbers,
strings, arrays and objects.  Arrays and objects are mutual inductives so that
all recursions stay structural. -/
mutual
inductive Json where
  | null : Json
  | bool (b : Bool) : Json
  | num (n : Int) : Json
  | str (s : String) : Json
  | arr (xs : JsonList) : Json
  | obj (kvs : JsonMembers) : Json
inductive JsonList where
  | nil : JsonList
  | cons (hd : Json) (tl : JsonList) : JsonList
inductive JsonMembers where
  | nil : JsonMembers
  | cons (key : String) (val : Json) (tl : JsonMembers) : JsonMembers
end

/-- Whether a JSON value is an object (a mapping). -/
def Json.isObj : Json → Bool
  | .obj _ => true
  | _ => false

/-- Escaping of a single character inside a JSON string literal, as json.dumps
does for the quote, the backslash and the common control characters. -/
def escapeChar (c : Char) : List Char :=
  if c = '"' then ['\\', '"']
  else if c = '\\' then ['\\', '\\']
  else if c = '\n' then ['\\', 'n']
  else if c = '\t' then ['\\', 't']
  else if c = '\r' then ['\\', 'r']
  else [c]

/-- Serialize the characters of a JSON string, escaped, with the closing
quote appended. -/
def escAux : List Char → List Char
  | [] => ['"']
  | c :: cs => escapeChar c ++ escAux cs

/-- Decimal digit characters of a natural number, most significant first. -/
def natChars (m : Nat) : List Char :=
  if m = 0 then ['0']
  else ((Nat.digits 10 m).map (fun d => Char.ofNat (48 + d))).reverse

/-- Decimal rendering of an integer, as json.dumps renders Python ints. -/
def serInt (n : Int) : List Char :=
  if n < 0 then '-' :: natChars n.natAbs else natChars n.toNat

/-- The rendering of the JSON null literal. -/
def litNull : List Char := ['n', 'u', 'l', 'l']

/-- The rendering of the JSON true literal. -/
def litTrue : List Char := ['t', 'r', 'u', 'e']

/-- The rendering of the JSON false literal. -/
def litFalse : List Char := ['f', 'a', 'l', 's', 'e']

/-! Model of json.dumps with its default separators: elements are joined by
a comma and a space, keys are separated from values by a colon and a space. -/
mutual
def serJson : Json → List Char
  | .null => litNull
  | .bool true => litTrue
  | .bool false => litFalse
  | .num n => serInt n
  | .str s => '"' :: escAux s.data
  | .arr .nil => ['[', ']']
  | .arr (.cons v tl) => '[' :: (serJson v ++ serElems tl)
  | .obj .nil => [lbrace, rbrace]
  | .obj (.cons k v tl) =>
      lbrace :: '"' :: (escAux k.data ++ (':' :: ' ' :: (serJson v ++ serMembers tl)))
def serElems : JsonList → List Char
  | .nil => [']']
  | .cons v tl => ',' :: ' ' :: (serJson v ++ serElems tl)
def serMembers : JsonMembers → List Char
  | .nil => [rbrace]
  | .cons k v tl =>
      ',' :: ' ' :: '"' :: (escAux k.data ++ (':' :: ' ' :: (serJson v ++ serMembers tl)))
end

/-- JSON whitespace test. -/
def isWsCh (c : Char) : Bool :=
  c = ' ' || c = '\n' || c = '\t' || c = '\r'

/-- Decimal digit test on the character code. -/
def isDig (c : Char) : Bool :=
  48 ≤ c.toNat && c.toNat ≤ 57

/-- Numeric value of a decimal digit character. -/
def digitVal (c : Char) : Nat := c.toNat - 48

/-- Drop leading JSON whitespace. -/
def skipWs : List Char → List Char
  | [] => []
  | c :: cs => if isWsCh c then skipWs cs else c :: cs

/-- Inverse of the string-literal escapes accepted by json.loads. -/
def unescape (c : Char) : Option Char :=
  if c = '"' then some '"'
  else if c = '\\' then some '\\'
  else if c = '/' then some '/'
  else if c = 'n' then some '\n'
  else if c = 't' then some '\t'
  else if c = 'r' then some '\r'
  else if c = 'b' then some (Char.ofNat 8)
  else if c = 'f' then some (Char.ofNat 12)
  else none

/-- Parse the body of a JSON string literal (the opening quote already
consumed), returning the unescaped characters and the remaining input.  The
boolean state records whether a backslash was just read. -/
def parseStrAux : List Char → Bool → Option (List Char × List Char)
  | [], _ => none
  | c :: cs, true =>
    match unescape c with
    | some u => (parseStrAux cs false).map (fun p => (u :: p.1, p.2))
    | none => none
  | c :: cs, false =>
    if c = '"' then some ([], cs)
    else if c = '\\' then parseStrAux cs true
    else (parseStrAux cs false).map (fun p => (c :: p.1, p.2))

/-- Parse a maximal run of decimal digits into its value. -/
def parseNat (cs : List Char) : Option (Nat × List Char) :=
  if (cs.takeWhile isDig).isEmpty then none
  else some ((cs.takeWhile isDig).foldl (fun a c => a * 10 + digitVal c) 0,
    cs.dropWhile isDig)

/-- Array branch of the value parser, abstracted over the element parser. -/
def parseArrBody (k : List Char → Option (JsonList × List Char)) (r : List Char) :
    Option (Json × List Char) :=
  match skipWs r with
  | [] => none
  | c1 :: r1 =>
    if c1 = ']' then some (.arr .nil, r1)
    else (k (c1 :: r1)).map (fun p => (.arr p.1, p.2))

/-- Object branch of the value parser, abstracted over the member parser. -/
def parseObjBody (k : List Char → Option (JsonMembers × List Char)) (r : List Char) :
    Option (Json × List Char) :=
  match skipWs r with
  | [] => none
  | c1 :: r1 =>
    if c1 = rbrace then some (.obj .nil, r1)
    else (k (c1 :: r1)).map (fun p => (.obj p.1, p.2))

/-- One key-value member followed by either the closing brace or a comma and
further members, abstracted over the value and member parsers. -/
def parseMemBody (pv : List Char → Option (Json × List Char))
    (pm : List Char → Option (JsonMembers × List Char)) (cs : List Char) :
    Option (JsonMembers × List Char) :=
  match cs with
  | [] => none
  | c :: r =>
    if c = '"' then
      match parseStrAux r false with
      | none => none
      | some (ks, r1) =>
        match skipWs r1 with
        | [] => none
        | c2 :: r2 =>
          if c2 = ':' then
            match pv (skipWs r2) with
            | none => none
            | some (v, r3) =>
              match skipWs r3 with
              | [] => none
              | c4 :: r4 =>
                if c4 = rbrace then some (.cons (String.mk ks) v .nil, r4)
                else if c4 = ',' then
                  (pm (skipWs r4)).map (fun p => (.cons (String.mk ks) v p.1, p.2))
                else none
          else none
    else none

/-! Model of the json.loads recursive-descent parser.  The fuel argument only
bounds recursion depth; every recursive call consumes input, so fuel equal to
the input length suffices. -/
mutual
def parseValue : Nat → List Char → Option (Json × List Char)
  | 0, _ => none
  | _ + 1, [] => none
  | fuel + 1, c :: r =>
    if c = 'n' then
      match r with
      | 'u' :: 'l' :: 'l' :: r2 => some (.null, r2)
      | _ => none
    else if c = 't' then
      match r with
      | 'r' :: 'u' :: 'e' :: r2 => some (.bool true, r2)
      | _ => none
    else if c = 'f' then
      match r with
      | 'a' :: 'l' :: 's' :: 'e' :: r2 => some (.bool false, r2)
      | _ => none
    else if c = '"' then
      (parseStrAux r false).map (fun p => (.str (String.mk p.1), p.2))
    else if c = '[' then
      parseArrBody (parseElems fuel) r
    else if c = lbrace then
      parseObjBody (parseMembers fuel) r
    else if c = '-' then
      (parseNat r).map (fun p => (.num (-(p.1 : Int)), p.2))
    else if isDig c then
      (parseNat (c :: r)).map (fun p => (.num (p.1 : Int), p.2))
    else none
def parseElems : Nat → List Char → Option (JsonList × List Char)
  | 0, _ => none
  | fuel + 1, cs =>
    match parseValue fuel cs with
    | none => none
    | some (v, r) =>
      match skipWs r with
      | [] => none
      | c :: r2 =>
        if c = ']' then some (.cons v .nil, r2)
        else if c = ',' then
          (parseElems fuel (skipWs r2)).map (fun p => (.cons v p.1, p.2))
        else none
def parseMembers : Nat → List Char → Option (JsonMembers × List Char)
  | 0, _ => none
  | fuel + 1, cs => parseMemBody (parseValue fuel) (parseMembers fuel) cs
end

/-- Model of json.loads: parse one JSON value, allowing surrounding
whitespace, and require the input to be exhausted; any failure models the
ValueError raised by the library. -/
def json_loads (s : String) : Option Json :=
  match parseValue (s.data.length + 1) (skipWs s.data) with
  | some (v, r) => if skipWs r = [] then some v else none
  | none => none

/-! ## The keychain module itself -/

/-- The external configuration source (odoo.tools.config): a flat key-value
lookup; absent keys read as None. -/
structure Config where
  get : String → Option String

/-- Python truthiness of an optional string field (None/False and the empty
string are falsy). -/
def truthyStr : Option String → Bool
  | none => false
  | some s => decide (s ≠ "")

/-- Model of a Fernet cipher object from the cryptography library, carrying
its key material. -/
structure Fernet where
  key : String
deriving DecidableEq

/-- Model of a Fernet token: authenticated ciphertext.  The token records the
key it was produced under and the plaintext it protects; decryption with a
different key fails (InvalidToken) instead of producing garbage, which is
exactly the authenticated-encryption contract the module relies on. -/
structure Token where
  keyId : String
  payload : String
deriving DecidableEq

/-- Fernet encryption. -/
def Fernet.encrypt (f : Fernet) (pt : String) : Token := ⟨f.key, pt⟩

/-- Fernet decryption: succeeds exactly when the token was produced under
this key. -/
def Fernet.decryptOne (f : Fernet) (t : Token) : Option String :=
  if t.keyId = f.key then some t.payload else none

/-- Model of MultiFernet: an ordered collection of Fernet ciphers. -/
structure MultiFernet where
  fernets : List Fernet
deriving DecidableEq

/-- MultiFernet encrypts with the first key. -/
def MultiFernet.encrypt (m : MultiFernet) (pt : String) : Token :=
  (m.fernets.headD ⟨r""⟩).encrypt pt

/-- Try each key in order; none means InvalidToken. -/
def tryKeys : List Fernet → Token → Option String
  | [], _ => none
  | f :: fs, t =>
    match f.decryptOne t with
    | some pt => some pt
    | none => tryKeys fs t

/-- MultiFernet decryption: first key that validates wins. -/
def MultiFernet.decrypt (m : MultiFernet) (t : Token) : Option String :=
  tryKeys m.fernets t

/-- The error values the module raises.  Each constructor corresponds to one
raise site of the source: ValidationError carries its message; configError
models the UserError raised by _get_cipher when no key is configured (its
message names the first attempted environment, see KcError.message);
invalidKeyError models the UserError raised by _decode_password on
InvalidToken; accountError models the UserError re-raised by _get_password,
which wraps the inner error together with the account identification. -/
inductive KcError where
  | validationError (msg : String)
  | configError (firstEnv : Option String)
  | invalidKeyError : KcError
  | accountError (inner : KcError) (login : Option String) (name : String)
      (technicalName : String)
deriving DecidableEq

/-- Which errors are UserError in the source (caught by the except clause of
_get_password).  ValidationError is a distinct odoo exception class. -/
def KcError.isUserError : KcError → Bool
  | .validationError _ => false
  | _ => true

/-- Python str() rendering of an environment slot (False renders as False). -/
def pyEnvStr : Option String → String
  | none => "False"
  | some e => e

/-- Rendering of the option value inside the account context message. -/
def pyOptStr : Option String → String
  | none => "False"
  | some s => s

/-- The user-facing message of each error, following the source format
strings (the source quotes the key name with apostrophes and interpolates a
freshly generated Fernet key after the fixed text; the tail of the
suggestion is abbreviated here). -/
def KcError.message : KcError → String
  | .validationError m => m
  | .configError fe =>
      "No keychain_key_" ++ pyEnvStr fe ++
        " entries found in config file. Use a key similar to: <generated key>"
  | .invalidKeyError =>
      "Password has been encrypted with a different key. " ++
        "Unless you can recover the previous key, this password is unreadable."
  | .accountError inner login name tech =>
      inner.message ++ " \nAccount: " ++ pyOptStr login ++ " " ++ name ++ " " ++ tech

/-- The keychain.account record.  The field ns models the source field named
namespace (a Lean keyword); clear_password is transient and not stored. -/
structure Account where
  name : String
  technical_name : String
  ns : String
  environment : Option String
  login : Option String
  password : Option Token
  data : Option String
deriving DecidableEq

/-- The namespace dispatch of implemented_by_keychain: a registry from
namespace tag to the optional namespace-specific validator and data
initializer (hasattr on the method named by the tag). -/
structure Registry where
  validate : String → Option (Json → Bool)
  initData : String → Option JsonMembers

/-- Source _default_validate_data: data is always valid. -/
def default_validate_data (_ : Json) : Bool := true

/-- Source _default_init_data: the empty mapping. -/
def default_init_data : JsonMembers := .nil

/-- Source _validate_data with the implemented_by_keychain dispatcher: use
the namespace-specific validator when registered, else the default. -/
def validate_data (reg : Registry) (ns : String) (d : Json) : Bool :=
  match reg.validate ns with
  | some f => f d
  | none => default_validate_data d

/-- Source _init_data with the implemented_by_keychain dispatcher. -/
def init_data (reg : Registry) (ns : String) : JsonMembers :=
  match reg.initData ns with
  | some m => m
  | none => default_init_data

/-- Source _serialize_data: json.dumps. -/
def serialize_data (d : Json) : String := String.mk (serJson d)

/-- Message of the ValidationError raised by _parse_data. -/
def msgJson : String := "Data should be a valid JSON"

/-- Message of the ValidationError raised by _check_data. -/
def msgNotValid : String := "Data not valid"

/-- Source _parse_data: json.loads, ValueError turned into a
ValidationError. -/
def parse_data (s : String) : Except KcError Json :=
  match json_loads s with
  | some v => .ok v
  | none => .error (.validationError msgJson)

/-- Source _check_data (the api.constrains validator on data): when data is
truthy, parse it and run the namespace validator; raise
ValidationError msgNotValid when the validator rejects. -/
def check_data (reg : Registry) (acc : Account) : Except KcError Unit :=
  if truthyStr acc.data then
    match parse_data (acc.data.getD (r"")) with
    | .error e => .error e
    | .ok parsed =>
      if validate_data reg acc.ns parsed then .ok ()
      else .error (.validationError msgNotValid)
  else .ok ()

/-- Written values of a write call.  Only the data slot matters to the
claims; the outer option is key presence in the vals dict, the inner option
is the written value (None/False or text). -/
structure Vals where
  data : Option (Option String)

/-- Truthiness of vals.get, as tested by the source write. -/
def valsDataTruthy (v : Vals) : Bool :=
  match v.data with
  | some inner => truthyStr inner
  | none => false

/-- Application of written values to the record (the persistence
collaborator's write). -/
def applyVals (acc : Account) (v : Vals) : Account :=
  match v.data with
  | some d => { acc with data := d }
  | none => acc

/-- Source write: when neither the written data value nor the stored data is
truthy, fill data with the serialized namespace default, then delegate to the
store; the api.constrains check on data runs whenever data is among the
written fields. -/
def write (reg : Registry) (acc : Account) (vals : Vals) : Except KcError Account :=
  let vals' :=
    if !valsDataTruthy vals && !truthyStr acc.data then
      { vals with data := some (some (serialize_data (.obj (init_data reg acc.ns)))) }
    else vals
  let acc' := applyVals acc vals'
  match (if vals'.data.isSome then check_data reg acc' else .ok ()) with
  | .ok _ => .ok acc'
  | .error e => .error e

/-- Source _retrieve_env: the current running environment from configuration
(falsy when unset or empty), followed by the wildcard slot when not already
present.  none models the Python False wildcard entry. -/
def retrieve_env (cfg : Config) : List (Option String) :=
  let current : Option String :=
    match cfg.get (r"running_env") with
    | some s => if s = "" then none else some s
    | none => none
  let envs : List (Option String) := [current]
  if none ∈ envs then envs else envs ++ [none]

/-- Suffix computed for an environment slot when building a config key name
(truthy tag gives an underscore suffix, falsy gives none). -/
def envSuffix : Option String → String
  | none => ""
  | some e => if e = "" then (r"") else (r"_") ++ e

/-- The inner _get_keys of _get_cipher: build lookup names, fetch them from
the configuration, keep the truthy values, wrap each in a Fernet. -/
def get_keys (cfg : Config) (envs : List (Option String)) : List Fernet :=
  let suffixes := envs.map envSuffix
  let keys_name := suffixes.map (fun suf => "keychain_key" ++ suf)
  let keys_str := keys_name.map cfg.get
  (keys_str.filter (fun k =>
    match k with
    | some s => decide (s ≠ "") && decide (0 < s.length)
    | none => false)).map (fun k => Fernet.mk (k.getD (r"")))

/-- Environment list used by _get_cipher: only the forced environment when
one is given and truthy, else the current environments. -/
def cipher_envs (cfg : Config) (force_env : Option String) : List (Option String) :=
  if truthyStr force_env then [force_env] else retrieve_env cfg

/-- Source _get_cipher: resolve keys for the environments; with no key at
all, raise the configuration UserError naming the first attempted
environment; else build the MultiFernet. -/
def get_cipher (cfg : Config) (force_env : Option String) : Except KcError MultiFernet :=
  let envs := cipher_envs cfg force_env
  let keys := get_keys cfg envs
  if keys.length = 0 then .error (.configError (envs.headD none))
  else .ok ⟨keys⟩

/-- Source _encode_password: encrypt the (possibly falsy) clear password
under the cipher for the given environment. -/
def encode_password (cfg : Config) (data : Option String) (env : Option String) :
    Except KcError Token :=
  match get_cipher cfg env with
  | .ok cipher => .ok (cipher.encrypt (data.getD (r"")))
  | .error e => .error e

/-- Source _decode_password: decrypt under the current-environment cipher;
InvalidToken becomes the unreadable-password UserError. -/
def decode_password (cfg : Config) (t : Token) : Except KcError String :=
  match get_cipher cfg none with
  | .error e => .error e
  | .ok cipher =>
    match cipher.decrypt t with
    | some pt => .ok pt
    | none => .error .invalidKeyError

/-- Source _get_password: decode the stored password, wrapping any UserError
with the account identification (login, name, technical name).  An unset
password field decodes like an arbitrary non-token string. -/
def get_password (cfg : Config) (acc : Account) : Except KcError String :=
  match decode_password cfg (acc.password.getD ⟨r"", r""⟩) with
  | .ok pt => .ok pt
  | .error e =>
    if e.isUserError then
      .error (.accountError e acc.login acc.name acc.technical_name)
    else .error e

/-- Search domain clauses: field equality as used by callers, and the
environment-in clause the module adds. -/
inductive DomClause where
  | fieldEq (field : String) (value : Option String)
  | envIn (envs : List (Option String))
deriving DecidableEq

/-- Field access for domain matching. -/
def accField (acc : Account) (f : String) : Option String :=
  if f = "login" then acc.login
  else if f = "name" then some acc.name
  else if f = "technical_name" then some acc.technical_name
  else if f = "environment" then acc.environment
  else if f = "namespace" then some acc.ns
  else none

/-- Clause satisfaction; the in clause matches the stored environment slot
against the listed slots (none models the NULL/False wildcard). -/
def matchesClause (acc : Account) : DomClause → Bool
  | .fieldEq f v => decide (accField acc f = v)
  | .envIn envs => decide (acc.environment ∈ envs)

/-- The persistence collaborator's search: records satisfying every clause
of the domain. -/
def search (accs : List Account) (domain : List DomClause) : List Account :=
  accs.filter (fun a => domain.all (matchesClause a))

/-- Source retrieve: append the environment filter to the caller domain,
then search. -/
def retrieve (cfg : Config) (accs : List Account) (domain : List DomClause) :
    List Account :=
  search accs (domain ++ [.envIn (retrieve_env cfg)])

/-! ### Auxiliary lemmas about the JSON codec -/

/-- Round trip of the string-literal escaper against the string-body
parser. -/
theorem escAux_rt (cs rest : List Char) :
    parseStrAux (escAux cs ++ rest) false = some (cs, rest) := by
  induction cs with
  | nil => simp [escAux, parseStrAux]
  | cons c cs ih =>
    by_cases h1 : c = '"'
    · subst h1; simp [escAux, escapeChar, parseStrAux, unescape, ih]
    · by_cases h2 : c = '\\'
      · subst h2; simp [escAux, escapeChar, parseStrAux, unescape, ih]
      · by_cases h3 : c = '\n'
        · subst h3; simp [escAux, escapeChar, parseStrAux, unescape, ih]
        · by_cases h4 : c = '\t'
          · subst h4; simp [escAux, escapeChar, parseStrAux, unescape, ih]
          · by_cases h5 : c = '\r'
            · subst h5; simp [escAux, escapeChar, parseStrAux, unescape, ih]
            · simp [escAux, escapeChar, parseStrAux, h1, h2, h3, h4, h5, ih]

/-- Digit characters satisfy the digit test. -/
theorem isDig_digitCh {d : Nat} (h : d < 10) : isDig (Char.ofNat (48 + d)) = true := by
  interval_cases d <;> decide

/-- Digit characters decode to their value. -/
theorem digitVal_digitCh {d : Nat} (h : d < 10) : digitVal (Char.ofNat (48 + d)) = d := by
  interval_cases d <;> decide

/-- The decimal rendering of a natural number is never empty. -/
theorem natChars_ne_nil (m : Nat) : natChars m ≠ [] := by
  unfold natChars
  split
  · simp
  · simp [Nat.digits_ne_nil_iff_ne_zero, *]

/-- Every character of a decimal rendering is a digit. -/
theorem natChars_all_dig (m : Nat) : ∀ c ∈ natChars m, isDig c = true := by
  unfold natChars
  split
  · intro c hc; simp at hc; subst hc; decide
  · intro c hc
    simp [List.mem_reverse, List.mem_map] at hc
    obtain ⟨d, hd, rfl⟩ := hc
    exact isDig_digitCh (Nat.digits_lt_base (by norm_num) hd)

/-- takeWhile and dropWhile split an append at the first failing head. -/
theorem takeWhile_all_append {p : Char → Bool} (xs rest : List Char)
    (hall : ∀ c ∈ xs, p c = true) (hr : ∀ c, rest.head? = some c → p c = false) :
    (xs ++ rest).takeWhile p = xs ∧ (xs ++ rest).dropWhile p = rest := by
  induction xs with
  | nil =>
    cases rest with
    | nil => simp
    | cons c cs => simp [List.takeWhile, List.dropWhile, hr c rfl]
  | cons x xs ih =>
    have hx : p x = true := hall x (by simp)
    have hrec := ih (fun c hc => hall c (by simp [hc]))
    simp [List.takeWhile, List.dropWhile, hx, hrec.1, hrec.2]

/-- Value computed by the digit fold over a rendered digit list. -/
theorem foldl_digitCh (l : List Nat) (hl : ∀ d ∈ l, d < 10) (acc : Nat) :
    ((l.map (fun d => Char.ofNat (48 + d))).reverse).foldl
        (fun a c => a * 10 + digitVal c) acc
      = acc * 10 ^ l.length + Nat.ofDigits 10 l := by
  induction l generalizing acc with
  | nil => simp [Nat.ofDigits]
  | cons d l ih =>
    have hd : d < 10 := hl d (by simp)
    have hl2 : ∀ x ∈ l, x < 10 := fun x hx => hl x (by simp [hx])
    simp only [List.map_cons, List.reverse_cons, List.foldl_append, List.foldl_cons,
      List.foldl_nil, List.length_cons]
    rw [ih hl2 acc, digitVal_digitCh hd, Nat.ofDigits_cons]
    ring

/-- Round trip of the decimal renderer against parseNat, provided the
remaining input does not begin with a digit. -/
theorem parseNat_natChars (m : Nat) (rest : List Char)
    (hr : ∀ c, rest.head? = some c → isDig c = false) :
    parseNat (natChars m ++ rest) = some (m, rest) := by
  obtain ⟨htake, hdrop⟩ := takeWhile_all_append (natChars m) rest (natChars_all_dig m) hr
  have hne : natChars m ≠ [] := natChars_ne_nil m
  unfold parseNat
  rw [htake, hdrop, if_neg (by simp [List.isEmpty_iff, hne])]
  by_cases hm : m = 0
  · subst hm
    rfl
  · have hrw : natChars m = ((Nat.digits 10 m).map (fun d => Char.ofNat (48 + d))).reverse := by
      simp [natChars, hm]
    rw [hrw, foldl_digitCh _ (fun d hd => Nat.digits_lt_base (by norm_num) hd) 0,
      Nat.ofDigits_digits]
    simp

/-- A digit character is none of the characters the value dispatcher or the
structural separators test for, and is not whitespace. -/
theorem isDig_ne_special {c : Char} (h : isDig c = true) :
    c ≠ 'n' ∧ c ≠ 't' ∧ c ≠ 'f' ∧ c ≠ '"' ∧ c ≠ '[' ∧ c ≠ lbrace ∧ c ≠ '-' ∧
    isWsCh c = false ∧ c ≠ ']' ∧ c ≠ ',' ∧ c ≠ rbrace ∧ c ≠ ':' := by
  refine ⟨?_, ?_, ?_, ?_, ?_, ?_, ?_, ?_, ?_, ?_, ?_, ?_⟩
  all_goals try (intro hc; subst hc; exact absurd h (by decide))
  cases hw : isWsCh c with
  | false => rfl
  | true =>
    exfalso
    simp [isWsCh] at hw
    rcases hw with ((rfl | rfl) | rfl) | rfl <;> exact absurd h (by decide)

/-- The escaped body of a string literal is never empty. -/
theorem escAux_len_pos (cs : List Char) : 1 ≤ (escAux cs).length := by
  induction cs with
  | nil => simp [escAux]
  | cons c cs ih => simp [escAux, List.length_append]; omega

/-- Serialized values are never empty. -/
theorem serJson_len_pos (v : Json) : 1 ≤ (serJson v).length := by
  cases v with
  | null => simp [serJson, litNull]
  | bool b => cases b <;> simp [serJson, litTrue, litFalse]
  | num n =>
    simp only [serJson, serInt]
    split
    · simp
    · have hne := natChars_ne_nil n.toNat
      cases h : natChars n.toNat with
      | nil => exact absurd h hne
      | cons a l => simp [h]
  | str s => simp [serJson]
  | arr xs => cases xs <;> simp [serJson]
  | obj kvs => cases kvs <;> simp [serJson]

/-- Serialized element tails are never empty. -/
theorem serElems_len_pos (xs : JsonList) : 1 ≤ (serElems xs).length := by
  cases xs <;> simp [serElems]

/-- Serialized member tails are never empty. -/
theorem serMembers_len_pos (kvs : JsonMembers) : 1 ≤ (serMembers kvs).length := by
  cases kvs <;> simp [serMembers]

/-- Every serialized value starts with a character that is not whitespace
and not a structural terminator. -/
theorem serJson_uncons (v : Json) : ∃ c cs, serJson v = c :: cs ∧ isWsCh c = false ∧
    c ≠ ']' ∧ c ≠ ',' ∧ c ≠ rbrace ∧ c ≠ ':' := by
  cases v with
  | null => exact ⟨'n', _, rfl, by decide, by decide, by decide, by decide, by decide⟩
  | bool b =>
    cases b with
    | false => exact ⟨'f', _, rfl, by decide, by decide, by decide, by decide, by decide⟩
    | true => exact ⟨'t', _, rfl, by decide, by decide, by decide, by decide, by decide⟩
  | num n =>
    by_cases hn : n < 0
    · refine ⟨'-', natChars n.natAbs, ?_, by decide, by decide, by decide, by decide, by decide⟩
      simp [serJson, serInt, hn]
    · have hne := natChars_ne_nil n.toNat
      cases h : natChars n.toNat with
      | nil => exact absurd h hne
      | cons c cs =>
        have hd : isDig c = true := natChars_all_dig n.toNat c (by rw [h]; simp)
        obtain ⟨_, _, _, _, _, _, _, w1, w2, w3, w4, w5⟩ := isDig_ne_special hd
        refine ⟨c, cs, ?_, w1, w2, w3, w4, w5⟩
        simp [serJson, serInt, hn, h]
  | str s => exact ⟨'"', _, rfl, by decide, by decide, by decide, by decide, by decide⟩
  | arr xs =>
    cases xs with
    | nil => exact ⟨'[', _, rfl, by decide, by decide, by decide, by decide, by decide⟩
    | cons v tl => exact ⟨'[', _, rfl, by decide, by decide, by decide, by decide, by decide⟩
  | obj kvs =>
    cases kvs with
    | nil => exact ⟨lbrace, _, rfl, by decide, by decide, by decide, by decide, by decide⟩
    | cons k v tl => exact ⟨lbrace, _, rfl, by decide, by decide, by decide, by decide, by decide⟩

/-- Leading whitespace removal does not touch a serialized value. -/
theorem skipWs_serJson (v : Json) (r : List Char) :
    skipWs (serJson v ++ r) = serJson v ++ r := by
  obtain ⟨c, cs, hser, hws, _, _, _, _⟩ := serJson_uncons v
  rw [hser]
  simp [skipWs, hws]

/-- skipWs keeps a list whose head is not whitespace. -/
theorem skipWs_cons_not_ws {c : Char} (h : isWsCh c = false) (cs : List Char) :
    skipWs (c :: cs) = c :: cs := by
  simp [skipWs, h]

/-- skipWs drops a leading space. -/
theorem skipWs_space (cs : List Char) : skipWs (' ' :: cs) = skipWs cs := rfl

/-- Serialized element tails never start with a digit. -/
theorem noDig_serElems (tl : JsonList) (rest : List Char) :
    ∀ c, (serElems tl ++ rest).head? = some c → isDig c = false := by
  cases tl <;> (intro c hc; simp [serElems] at hc; subst hc; decide)

/-- Serialized member tails never start with a digit. -/
theorem noDig_serMembers (tl : JsonMembers) (rest : List Char) :
    ∀ c, (serMembers tl ++ rest).head? = some c → isDig c = false := by
  cases tl <;> (intro c hc; simp [serMembers] at hc; subst hc; decide)

/-- Rebuilding a string from its characters is the identity. -/
theorem string_mk_data (s : String) : String.mk s.data = s := by
  cases s
  rfl

/-- Reduction of the array branch when the element list is not empty. -/
theorem parseArrBody_eq (k : List Char → Option (JsonList × List Char)) {r : List Char}
    {c : Char} {r1 : List Char} (h : skipWs r = c :: r1) (hbr : c ≠ ']') :
    parseArrBody k r = (k (c :: r1)).map (fun p => (Json.arr p.1, p.2)) := by
  unfold parseArrBody
  rw [h]
  show (if c = ']' then some (Json.arr .nil, r1)
      else (k (c :: r1)).map (fun p => (Json.arr p.1, p.2)))
    = (k (c :: r1)).map (fun p => (Json.arr p.1, p.2))
  rw [if_neg hbr]

/-- Round trip of one serialized member run through parseMemBody, given that
the value and member continuations behave on the embedded inputs. -/
theorem parseMemBody_eq (pv : List Char → Option (Json × List Char))
    (pm : List Char → Option (JsonMembers × List Char))
    (k : String) (v : Json) (tl : JsonMembers) (rest : List Char)
    (hpv : pv (serJson v ++ (serMembers tl ++ rest)) = some (v, serMembers tl ++ rest))
    (hpm : ∀ k2 v2 tl2, tl = .cons k2 v2 tl2 →
      pm ('"' :: (escAux k2.data ++ (':' :: ' ' :: (serJson v2 ++ (serMembers tl2 ++ rest)))))
        = some (.cons k2 v2 tl2, rest)) :
    parseMemBody pv pm
        ('"' :: (escAux k.data ++ (':' :: ' ' :: (serJson v ++ (serMembers tl ++ rest)))))
      = some (.cons k v tl, rest) := by
  show (match parseStrAux
      (escAux k.data ++ (':' :: ' ' :: (serJson v ++ (serMembers tl ++ rest)))) false with
    | none => none
    | some (ks, r1) =>
      match skipWs r1 with
      | [] => none
      | c2 :: r2 =>
        if c2 = ':' then
          match pv (skipWs r2) with
          | none => none
          | some (v, r3) =>
            match skipWs r3 with
            | [] => none
            | c4 :: r4 =>
              if c4 = rbrace then some (JsonMembers.cons (String.mk ks) v .nil, r4)
              else if c4 = ',' then
                (pm (skipWs r4)).map (fun p => (JsonMembers.cons (String.mk ks) v p.1, p.2))
              else none
        else none) = some (.cons k v tl, rest)
  rw [escAux_rt]
  show (match pv (skipWs (serJson v ++ (serMembers tl ++ rest))) with
    | none => none
    | some (v, r3) =>
      match skipWs r3 with
      | [] => none
      | c4 :: r4 =>
        if c4 = rbrace then some (JsonMembers.cons (String.mk k.data) v .nil, r4)
        else if c4 = ',' then
          (pm (skipWs r4)).map (fun p => (JsonMembers.cons (String.mk k.data) v p.1, p.2))
        else none) = some (.cons k v tl, rest)
  rw [skipWs_serJson, hpv]
  cases tl with
  | nil => rfl
  | cons k2 v2 tl2 =>
    show (pm (skipWs (' ' :: '"' ::
        ((escAux k2.data ++ (':' :: ' ' :: (serJson v2 ++ serMembers tl2))) ++ rest)))).map
      (fun p => (JsonMembers.cons (String.mk k.data) v p.1, p.2))
      = some (.cons k v (.cons k2 v2 tl2), rest)
    rw [skipWs_space, skipWs_cons_not_ws (by decide)]
    have hsh : '"' :: ((escAux k2.data ++ (':' :: ' ' :: (serJson v2 ++ serMembers tl2))) ++ rest)
        = '"' :: (escAux k2.data ++ (':' :: ' ' :: (serJson v2 ++ (serMembers tl2 ++ rest)))) := by
      simp [List.append_assoc]
    rw [hsh, hpm k2 v2 tl2 rfl]
    rfl

/-- Round trip of the serializer against the parser: with enough fuel, a
serialized value parses back to itself, as do serialized element and member
tails. -/
theorem rt_all (n : Nat) :
    (∀ (v : Json) (rest : List Char), (serJson v).length ≤ n →
      (∀ c, rest.head? = some c → isDig c = false) →
      parseValue n (serJson v ++ rest) = some (v, rest)) ∧
    (∀ (v : Json) (tl : JsonList) (rest : List Char),
      (serJson v).length + (serElems tl).length ≤ n →
      parseElems n (serJson v ++ (serElems tl ++ rest)) = some (.cons v tl, rest)) ∧
    (∀ (k : String) (v : Json) (tl : JsonMembers) (rest : List Char),
      1 + (escAux k.data).length + 2 + (serJson v).length + (serMembers tl).length ≤ n →
      parseMembers n
          ('"' :: (escAux k.data ++ (':' :: ' ' :: (serJson v ++ (serMembers tl ++ rest)))))
        = some (.cons k v tl, rest)) := by
  induction n with
  | zero =>
    refine ⟨?_, ?_, ?_⟩
    · intro v rest hlen _
      have := serJson_len_pos v
      omega
    · intro v tl rest hlen
      have := serJson_len_pos v
      have := serElems_len_pos tl
      omega
    · intro k v tl rest hlen
      omega
  | succ n ih =>
    obtain ⟨ihV, ihL, ihM⟩ := ih
    refine ⟨?_, ?_, ?_⟩
    · intro v rest hlen hr
      cases v with
      | null => rfl
      | bool b => cases b <;> rfl
      | num m =>
        by_cases hm : m < 0
        · have hser : serJson (.num m) = '-' :: natChars m.natAbs := by
            simp [serJson, serInt, hm]
          rw [hser]
          show (parseNat (natChars m.natAbs ++ rest)).map
            (fun p => (Json.num (-(p.1 : Int)), p.2)) = some (.num m, rest)
          rw [parseNat_natChars _ _ hr]
          have hcast : -((m.natAbs : Nat) : Int) = m := by omega
          show some (Json.num (-((m.natAbs : Nat) : Int)), rest) = some (.num m, rest)
          rw [hcast]
        · have hne := natChars_ne_nil m.toNat
          obtain ⟨c, cs, hnc⟩ : ∃ c cs, natChars m.toNat = c :: cs := by
            cases h : natChars m.toNat with
            | nil => exact absurd h hne
            | cons c cs => exact ⟨c, cs, rfl⟩
          have hd : isDig c = true := natChars_all_dig m.toNat c (by rw [hnc]; simp)
          obtain ⟨d1, d2, d3, d4, d5, d6, d7, _, _, _, _, _⟩ := isDig_ne_special hd
          have hser : serJson (.num m) = c :: cs := by
            simp [serJson, serInt, hm, hnc]
          rw [hser]
          simp only [List.cons_append, parseValue]
          rw [if_neg d1, if_neg d2, if_neg d3, if_neg d4, if_neg d5, if_neg d6, if_neg d7,
            if_pos hd]
          rw [← List.cons_append, ← hnc, parseNat_natChars _ _ hr]
          have hcast : ((m.toNat : Nat) : Int) = m := Int.toNat_of_nonneg (by omega)
          show some (Json.num ((m.toNat : Nat) : Int), rest) = some (.num m, rest)
          rw [hcast]
      | str s =>
        show (parseStrAux (escAux s.data ++ rest) false).map
          (fun p => (Json.str (String.mk p.1), p.2)) = some (.str s, rest)
        rw [escAux_rt]
        simp [string_mk_data]
      | arr xs =>
        cases xs with
        | nil => rfl
        | cons v1 tl =>
          have hl1 := serJson_len_pos v1
          have hl2 := serElems_len_pos tl
          have hlen2 : (serJson v1).length + (serElems tl).length ≤ n := by
            simp only [serJson, List.length_cons, List.length_append] at hlen
            omega
          obtain ⟨c, cs, hser2, hws, hbr, _, _, _⟩ := serJson_uncons v1
          have hskip : skipWs ((serJson v1 ++ serElems tl) ++ rest)
              = c :: (cs ++ (serElems tl ++ rest)) := by
            rw [List.append_assoc, skipWs_serJson, hser2, List.cons_append]
          show parseArrBody (parseElems n) ((serJson v1 ++ serElems tl) ++ rest)
            = some (.arr (.cons v1 tl), rest)
          rw [parseArrBody_eq _ hskip hbr]
          have hfold : c :: (cs ++ (serElems tl ++ rest))
              = serJson v1 ++ (serElems tl ++ rest) := by
            rw [hser2, List.cons_append]
          rw [hfold, ihL v1 tl rest hlen2]
          rfl
      | obj kvs =>
        cases kvs with
        | nil => rfl
        | cons k v1 tl =>
          have hl1 := escAux_len_pos k.data
          have hl2 := serJson_len_pos v1
          have hl3 := serMembers_len_pos tl
          have hlen2 : 1 + (escAux k.data).length + 2 + (serJson v1).length
              + (serMembers tl).length ≤ n := by
            simp only [serJson, List.length_cons, List.length_append] at hlen
            omega
          show (parseMembers n
              ('"' :: ((escAux k.data ++ (':' :: ' ' :: (serJson v1 ++ serMembers tl))) ++ rest))).map
            (fun p => (Json.obj p.1, p.2)) = some (.obj (.cons k v1 tl), rest)
          have hsh : '"' :: ((escAux k.data ++ (':' :: ' ' :: (serJson v1 ++ serMembers tl))) ++ rest)
              = '"' :: (escAux k.data ++ (':' :: ' ' :: (serJson v1 ++ (serMembers tl ++ rest)))) := by
            simp [List.append_assoc]
          rw [hsh, ihM k v1 tl rest hlen2]
          rfl
    · intro v tl rest hlen
      have hl1 := serJson_len_pos v
      have hl2 := serElems_len_pos tl
      have hlenV : (serJson v).length ≤ n := by omega
      simp only [parseElems]
      rw [ihV v (serElems tl ++ rest) hlenV (noDig_serElems tl rest)]
      cases tl with
      | nil => rfl
      | cons v2 tl2 =>
        have hl3 := serJson_len_pos v2
        have hl4 := serElems_len_pos tl2
        have hlen3 : (serJson v2).length + (serElems tl2).length ≤ n := by
          simp only [serElems, List.length_cons, List.length_append] at hlen
          omega
        show (parseElems n (skipWs ((serJson v2 ++ serElems tl2) ++ rest))).map
          (fun p => (JsonList.cons v p.1, p.2))
          = some (JsonList.cons v (JsonList.cons v2 tl2), rest)
        rw [List.append_assoc, skipWs_serJson, ihL v2 tl2 rest hlen3]
        rfl
    · intro k v tl rest hlen
      have hl1 := escAux_len_pos k.data
      have hl2 := serJson_len_pos v
      have hl3 := serMembers_len_pos tl
      show parseMemBody (parseValue n) (parseMembers n)
          ('"' :: (escAux k.data ++ (':' :: ' ' :: (serJson v ++ (serMembers tl ++ rest)))))
        = some (.cons k v tl, rest)
      apply parseMemBody_eq
      · exact ihV v (serMembers tl ++ rest) (by omega) (noDig_serMembers tl rest)
      · intro k2 v2 tl2 htl
        subst htl
        have hl4 := escAux_len_pos k2.data
        have hl5 := serJson_len_pos v2
        have hl6 := serMembers_len_pos tl2
        refine ihM k2 v2 tl2 rest ?_
        simp only [serMembers, List.length_cons, List.length_append] at hlen
        omega

/-- Serializing any JSON value and parsing the result gives the value back:
the fuel chosen by json_loads is sufficient and the whole input is
consumed. -/
theorem json_loads_serialize (v : Json) : json_loads (serialize_data v) = some v := by
  have h0 : skipWs (serJson v) = serJson v := by
    have h := skipWs_serJson v []
    simpa using h
  have h1 : parseValue ((serJson v).length + 1) (serJson v ++ []) = some (v, []) :=
    (rt_all ((serJson v).length + 1)).1 v [] (by omega) (by intro c hc; simp at hc)
  rw [List.append_nil] at h1
  unfold json_loads serialize_data
  simp only [String.data]
  rw [h0, h1]
  rfl

/-! ### Auxiliary lemmas about the keychain operations -/

/-- Appending strings appends their character data. -/
theorem string_data_append (a b : String) : (a ++ b).data = a.data ++ b.data := by
  cases a
  cases b
  rfl

/-- A string differs from the empty string exactly when it has characters. -/
theorem string_ne_empty_iff (s : String) : s ≠ "" ↔ s.data ≠ [] := by
  constructor
  · intro h hd
    apply h
    rw [← string_mk_data s, hd]
  · intro h hs
    apply h
    rw [hs]

/-- Nonempty strings have positive length. -/
theorem length_pos_of_ne_empty {s : String} (h : s ≠ "") : 0 < s.length := by
  have hd := (string_ne_empty_iff s).mp h
  cases hl : s.data with
  | nil => exact absurd hl hd
  | cons a l =>
    have hlen : s.length = s.data.length := rfl
    rw [hlen, hl]
    simp

/-- Resolved key material is the in-order filterMap of the per-environment
configuration lookup: order preserved, missing and empty values skipped. -/
theorem get_keys_eq (cfg : Config) (envs : List (Option String)) :
    get_keys cfg envs = envs.filterMap (fun env =>
      match cfg.get ((r"keychain_key") ++ envSuffix env) with
      | some k => if k = "" then none else some (Fernet.mk k)
      | none => none) := by
  induction envs with
  | nil => rfl
  | cons e es ih =>
    simp only [get_keys] at ih ⊢
    simp only [List.map_cons, List.filterMap_cons]
    cases hk : cfg.get ((r"keychain_key") ++ envSuffix e) with
    | none => simpa [hk] using ih
    | some k =>
      by_cases hke : k = ""
      · subst hke
        simpa [hk] using ih
      · have hpos := length_pos_of_ne_empty hke
        simpa [hk, hke, hpos] using ih

/-- A cipher returned by get_cipher carries exactly the resolved keys, and
there is at least one. -/
theorem get_cipher_ok {cfg : Config} {fe : Option String} {c : MultiFernet}
    (h : get_cipher cfg fe = .ok c) :
    c = ⟨get_keys cfg (cipher_envs cfg fe)⟩ ∧ c.fernets ≠ [] := by
  simp only [get_cipher] at h
  by_cases hl : (get_keys cfg (cipher_envs cfg fe)).length = 0
  · rw [if_pos hl] at h
    simp at h
  · rw [if_neg hl] at h
    injection h with h2
    refine ⟨h2.symm, ?_⟩
    rw [← h2]
    intro hnil
    apply hl
    have hkeys : get_keys cfg (cipher_envs cfg fe) = [] := hnil
    rw [hkeys]
    rfl

/-- Serialized JSON text is never the empty string. -/
theorem serialize_data_ne_empty (v : Json) : serialize_data v ≠ "" := by
  intro h
  have h2 : serJson v = [] := congrArg String.data h
  have hlen := serJson_len_pos v
  rw [h2] at hlen
  simp at hlen

/-- Round trip of MultiFernet encryption and decryption: a token produced
with the primary key decrypts under the same key collection. -/
theorem multiFernet_roundtrip (m : MultiFernet) (hm : m.fernets ≠ []) (pt : String) :
    m.decrypt (m.encrypt pt) = some pt := by
  cases hf : m.fernets with
  | nil => exact absurd hf hm
  | cons f fs =>
    unfold MultiFernet.encrypt MultiFernet.decrypt
    rw [hf]
    simp [List.headD, tryKeys, Fernet.encrypt, Fernet.decryptOne]

/-- The lookup name for a forced nonempty environment tag. -/
theorem key_name_forced (e : String) (he : e ≠ "") :
    (r"keychain_key") ++ envSuffix (some e) = (r"keychain_key_") ++ e := by
  have he2 : envSuffix (some e) = (r"_") ++ e := by simp [envSuffix, he]
  rw [he2]
  cases e with
  | mk l => rfl

/-! ### Concrete fixtures used by witnesses and counterexamples -/

/-- A configuration with only the wildcard key. -/
def cfg1 : Config := ⟨fun k => if k = "keychain_key" then some (r"K1") else none⟩

/-- A token produced under the wildcard key of cfg1. -/
def tok1 : Token := ⟨r"K1", r"s3cret"⟩

/-- A configuration with a wildcard key but no key for the dev environment. -/
def cfgWild : Config := ⟨fun k => if k = "keychain_key" then some (r"WILDKEY") else none⟩

/-- A configuration with only a dev-environment key. -/
def cfgDev : Config := ⟨fun k => if k = "keychain_key_dev" then some (r"DEVKEY") else none⟩

/-- A configuration with no keys at all. -/
def cfgNone : Config := ⟨fun _ => none⟩

/-- A registry with no namespace handlers registered. -/
def regEmpty : Registry := ⟨fun _ => none, fun _ => none⟩

/-- A registry where namespace bar validates that the data is a mapping. -/
def regBar : Registry :=
  ⟨fun ns => if ns = "bar" then some (fun v => Json.isObj v) else none, fun _ => none⟩

/-- A registry whose validator rejects everything, for every namespace. -/
def regReject : Registry := ⟨fun _ => some (fun _ => false), fun _ => none⟩

/-- The serialized empty JSON object (two characters, open and close brace). -/
def emptyObjText : String := "\x7b\x7d"

/-- A JSON object text with one key. -/
def jsonAB : String := "\x7b\"a\": 1\x7d"

/-- An account of namespace foo whose data is a JSON list. -/
def accFoo : Account := ⟨r"Acc", r"acc_tech", r"foo", none, none, none, some (r"[1, 2]")⟩

/-- An account of namespace bar without data. -/
def accBar : Account := ⟨r"Bar", r"bar_tech", r"bar", none, none, none, none⟩

/-- An account of namespace bar with mapping data. -/
def accBarObj : Account := ⟨r"B2", r"b2_tech", r"bar", none, none, none, some jsonAB⟩

/-- An account of namespace foo with mapping data. -/
def accAB : Account := ⟨r"Acc2", r"acc2_tech", r"foo", none, none, none, some jsonAB⟩

/-- An account with no data. -/
def accNoData : Account := ⟨r"Acc3", r"acc3_tech", r"foo", none, none, none, none⟩

/-- A token under a key that is not configured in cfg1. -/
def tokOther : Token := ⟨r"OTHER", r"zzz"⟩

/-- An account holding a password encrypted under an unknown key. -/
def accTok : Account := ⟨r"Acc4", r"acc4_tech", r"foo", none, some (r"svc"), some tokOther, none⟩

/-- Written values setting data to the empty text. -/
def valsEmptyText : Vals := ⟨some (some (r""))⟩

/-- Written values setting data to a JSON list text. -/
def valsList : Vals := ⟨some (some (r"[1, 2]"))⟩

/-- Written values that do not touch data. -/
def valsAbsent : Vals := ⟨none⟩

/-- Writes whose data value is truthy skip the default fill and run the data
constraint on the updated record. -/
theorem write_data_write (reg : Registry) (acc : Account) (vals : Vals) (d : Option String)
    (hvd : vals.data = some d) (ht : truthyStr d = true) :
    write reg acc vals =
      (match check_data reg { acc with data := d } with
       | .ok _ => .ok { acc with data := d }
       | .error e => .error e) := by
  have hv : valsDataTruthy vals = true := by simp [valsDataTruthy, hvd, ht]
  have hcond : ¬((!valsDataTruthy vals && !truthyStr acc.data) = true) := by
    rw [hv]
    simp
  simp only [write]
  rw [if_neg hcond]
  simp only [applyVals]
  rw [hvd]
  rfl

/-! ### The claims -/

/-- Claim C1: for every plaintext and every configuration under which the
current-environment cipher resolves (the encode succeeds), decoding the
encoded password under the same configuration returns the original
plaintext. -/
theorem claim_c1_roundtrip (cfg : Config) (pt : String) (t : Token)
    (h : encode_password cfg (some pt) none = .ok t) :
    decode_password cfg t = .ok pt := by
  cases hc : get_cipher cfg none with
  | error e =>
    simp only [encode_password] at h
    rw [hc] at h
    simp at h
  | ok c =>
    simp only [encode_password] at h
    rw [hc] at h
    have h2 : Except.ok (ε := KcError) (c.encrypt ((some pt).getD (r""))) = .ok t := h
    injection h2 with h3
    have ht : t = c.encrypt pt := h3.symm
    obtain ⟨_, hne⟩ := get_cipher_ok hc
    simp only [decode_password]
    rw [hc]
    show (match c.decrypt t with
      | some pt2 => Except.ok pt2
      | none => Except.error KcError.invalidKeyError) = .ok pt
    rw [ht, multiFernet_roundtrip c hne pt]

/-- Claim C1 witness: a concrete encode and decode under the wildcard key. -/
theorem claim_c1_witness :
    encode_password cfg1 (some (r"s3cret")) none = .ok tok1 ∧
      decode_password cfg1 tok1 = .ok (r"s3cret") :=
  ⟨rfl, claim_c1_roundtrip cfg1 (r"s3cret") tok1 rfl⟩

/-- Claim C2 counterexample: with a configured wildcard key (so the cipher
for the current environments exists) but no key for dev, encoding with the
forced environment dev fails with the configuration error instead of falling
back to the wildcard key, so the wildcard key is not consulted when an
environment is forced. -/
theorem claim_c2_counterexample :
    encode_password cfgWild (some (r"x")) (some (r"dev"))
        = .error (.configError (some (r"dev")))
      ∧ get_cipher cfgWild none = .ok ⟨[Fernet.mk (r"WILDKEY")]⟩ := ⟨rfl, rfl⟩

/-- Claim C2 amended: forcing a nonempty environment makes that environment
the only entry of the environment list, so only its own configuration key is
consulted — encryption uses exactly that key when configured and nonempty,
and fails with the configuration error naming the forced environment
otherwise; there is no wildcard fallback. -/
theorem claim_c2_forced_env (cfg : Config) (pt : Option String) (e : String) (he : e ≠ "") :
    cipher_envs cfg (some e) = [some e] ∧
    encode_password cfg pt (some e) =
      (match cfg.get ((r"keychain_key_") ++ e) with
       | some k => if k = "" then .error (.configError (some e))
           else .ok (Token.mk k (pt.getD (r"")))
       | none => .error (.configError (some e))) := by
  have htr : truthyStr (some e) = true := by simp [truthyStr, he]
  have henvs : cipher_envs cfg (some e) = [some e] := by simp [cipher_envs, htr]
  refine ⟨henvs, ?_⟩
  have hkeys : get_keys cfg [some e] =
      (match cfg.get ((r"keychain_key_") ++ e) with
       | some k => if k = "" then [] else [Fernet.mk k]
       | none => []) := by
    rw [get_keys_eq]
    simp only [List.filterMap_cons, List.filterMap_nil]
    rw [key_name_forced e he]
    cases hk : cfg.get ((r"keychain_key_") ++ e) with
    | none => simp
    | some k =>
      by_cases hke : k = ""
      · subst hke
        simp
      · simp [hke]
  simp only [encode_password, get_cipher, henvs, hkeys]
  cases hk : cfg.get ((r"keychain_key_") ++ e) with
  | none => rfl
  | some k =>
    by_cases hke : k = ""
    · subst hke
      rfl
    · simp [hke, MultiFernet.encrypt, Fernet.encrypt]

/-- Claim C2 witness: encoding against the forced dev environment uses the
dev key. -/
theorem claim_c2_witness :
    encode_password cfgDev (some (r"pw")) (some (r"dev"))
      = .ok (Token.mk (r"DEVKEY") (r"pw")) :=
  ((claim_c2_forced_env cfgDev (some (r"pw")) (r"dev") (by decide)).2).trans rfl

/-- Claim C3: key resolution fetches, per environment slot in order, the
name built from the fixed keychain_key text and the environment suffix,
silently skipping missing or empty values; when nothing remains the cipher
construction fails with the configuration error carrying the first (most
specific) attempted environment, whose message names that environment and
shows the expected key-name format; otherwise the cipher holds the resolved
keys. -/
theorem claim_c3_key_resolution (cfg : Config) (fe : Option String) :
    (get_keys cfg (cipher_envs cfg fe) = (cipher_envs cfg fe).filterMap (fun env =>
      match cfg.get ((r"keychain_key") ++ envSuffix env) with
      | some k => if k = "" then none else some (Fernet.mk k)
      | none => none)) ∧
    (∀ t, t ≠ "" → envSuffix (some t) = (r"_") ++ t) ∧
    envSuffix none = "" ∧
    (get_keys cfg (cipher_envs cfg fe) = [] →
      get_cipher cfg fe = .error (.configError ((cipher_envs cfg fe).headD none))) ∧
    (get_keys cfg (cipher_envs cfg fe) ≠ [] →
      get_cipher cfg fe = .ok ⟨get_keys cfg (cipher_envs cfg fe)⟩) ∧
    (∀ env, List.IsInfix (pyEnvStr env).data ((KcError.message (.configError env)).data)) ∧
    List.IsInfix (r"keychain_key_").data ((KcError.message (.configError fe)).data) := by
  refine ⟨get_keys_eq cfg _, ?_, rfl, ?_, ?_, ?_, ?_⟩
  · intro t ht
    simp [envSuffix, ht]
  · intro h
    simp only [get_cipher]
    rw [h]
    rfl
  · intro h
    have hlen : ¬(get_keys cfg (cipher_envs cfg fe)).length = 0 := by
      simpa [List.length_eq_zero] using h
    simp only [get_cipher]
    rw [if_neg hlen]
  · intro env
    refine ⟨(r"No keychain_key_").data,
      (r" entries found in config file. Use a key similar to: <generated key>").data, ?_⟩
    simp [KcError.message, string_data_append, List.append_assoc]
  · refine ⟨(r"No ").data,
      ((pyEnvStr fe) ++ (r" entries found in config file. Use a key similar to: <generated key>")).data, ?_⟩
    rw [string_data_append]
    rw [show (r"No ").data ++ (r"keychain_key_").data = (r"No keychain_key_").data from rfl]
    simp [KcError.message, string_data_append, List.append_assoc]

/-- Claim C3 witness: with an empty configuration the cipher fails naming
the wildcard slot, and the suffix of a concrete tag is the underscored
tag. -/
theorem claim_c3_witness :
    get_cipher cfgNone none = .error (.configError none) ∧
      envSuffix (some (r"dev")) = (r"_dev") :=
  ⟨(claim_c3_key_resolution cfgNone none).2.2.2.1 rfl,
    ((claim_c3_key_resolution cfgNone none).2.1 (r"dev") (by decide)).trans rfl⟩

/-- Claim C4 counterexample: a JSON list (not a mapping) stored in data
passes the constraint and the write for a namespace with no registered
validator, because the default validator accepts everything; the write is
not rejected. -/
theorem claim_c4_counterexample :
    json_loads (r"[1, 2]") = some (.arr (.cons (.num 1) (.cons (.num 2) .nil))) ∧
    Json.isObj (.arr (.cons (.num 1) (.cons (.num 2) .nil))) = false ∧
    check_data regEmpty accFoo = .ok () ∧
    write regEmpty accFoo valsList = .ok accFoo :=
  ⟨rfl, rfl, rfl, rfl⟩

/-- Claim C4 amended: writing a non-empty data text whose JSON value is not
a mapping is rejected with the Data-not-valid error exactly when the
namespace validator selected for the record rejects the value; with no
registered validator the default accepts it and the write succeeds. -/
theorem claim_c4_nonmapping (reg : Registry) (acc : Account) (vals : Vals) (s : String)
    (v : Json) (hv : vals.data = some (some s)) (hs : s ≠ "")
    (hj : json_loads s = some v) (hno : Json.isObj v = false) :
    (write reg acc vals = .error (.validationError msgNotValid)
      ↔ validate_data reg acc.ns v = false) ∧
    (reg.validate acc.ns = none → write reg acc vals = .ok { acc with data := some s }) := by
  have htr : truthyStr (some s) = true := by simp [truthyStr, hs]
  have hw := write_data_write reg acc vals (some s) hv htr
  have hparse : parse_data s = .ok v := by simp [parse_data, hj]
  have hcheck : check_data reg { acc with data := some s }
      = (if validate_data reg acc.ns v then Except.ok ()
         else .error (.validationError msgNotValid)) := by
    simp only [check_data]
    rw [if_pos htr]
    show (match parse_data s with
      | Except.error e => Except.error e
      | Except.ok parsed =>
        if validate_data reg acc.ns parsed then Except.ok ()
        else Except.error (.validationError msgNotValid)) = _
    rw [hparse]
  constructor
  · rw [hw, hcheck]
    cases hval : validate_data reg acc.ns v
    · simp [hval]
    · simp [hval]
  · intro h0
    have hval : validate_data reg acc.ns v = true := by
      simp [validate_data, h0, default_validate_data]
    rw [hw, hcheck, if_pos hval]

/-- Claim C4 witness: the same list under a namespace whose validator
demands a mapping is rejected. -/
theorem claim_c4_witness :
    write regBar accBar valsList = .error (.validationError msgNotValid) :=
  (claim_c4_nonmapping regBar accBar valsList (r"[1, 2]")
    (.arr (.cons (.num 1) (.cons (.num 2) .nil))) rfl (by decide) rfl rfl).1.mpr rfl

/-- Claim C5 counterexample: a write whose incoming data value is empty, on
a record whose stored data is non-empty, succeeds and leaves the data empty
and unparseable — the default mapping is not stored, refuting both the
unconditional defaulting and the data-always-parseable invariant. -/
theorem claim_c5_counterexample :
    truthyStr accAB.data = true ∧
    valsDataTruthy valsEmptyText = false ∧
    write regEmpty accAB valsEmptyText = .ok { accAB with data := some (r"") } ∧
    json_loads (r"") = none :=
  ⟨rfl, rfl, rfl, rfl⟩

/-- Claim C5 amended: for every registry, when the written data value and
the stored data are both empty (falsy), the write serializes the namespace's
default-initialization mapping (the registered initializer's mapping, or the
empty mapping when none is registered) into data and submits it; the write
succeeds with that serialized mapping stored exactly when the dispatched
namespace validator accepts the mapping (the default validator, used when
none is registered, accepts it), and fails with the Data-not-valid
validation error otherwise; with no registered initializer the stored text
is the two-character empty JSON object. -/
theorem claim_c5_default_init (reg : Registry) (acc : Account) (vals : Vals)
    (hvd : valsDataTruthy vals = false) (had : truthyStr acc.data = false) :
    (write reg acc vals
      = if validate_data reg acc.ns (Json.obj (init_data reg acc.ns))
        then .ok { acc with
          data := some (serialize_data (Json.obj (init_data reg acc.ns))) }
        else .error (.validationError msgNotValid)) ∧
    (reg.initData acc.ns = none → init_data reg acc.ns = default_init_data) ∧
    serialize_data (Json.obj default_init_data) = emptyObjText ∧
    (reg.validate acc.ns = none →
      validate_data reg acc.ns (Json.obj (init_data reg acc.ns)) = true) := by
  refine ⟨?_, ?_, rfl, ?_⟩
  · have hne : serialize_data (Json.obj (init_data reg acc.ns)) ≠ "" :=
      serialize_data_ne_empty _
    have htr : truthyStr (some (serialize_data (Json.obj (init_data reg acc.ns)))) = true := by
      simp [truthyStr, hne]
    have hparse : parse_data (serialize_data (Json.obj (init_data reg acc.ns)))
        = .ok (Json.obj (init_data reg acc.ns)) := by
      simp only [parse_data]
      rw [json_loads_serialize]
    have hcheck : check_data reg
          { acc with data := some (serialize_data (Json.obj (init_data reg acc.ns))) }
        = (if validate_data reg acc.ns (Json.obj (init_data reg acc.ns)) then Except.ok ()
           else .error (.validationError msgNotValid)) := by
      simp only [check_data]
      rw [if_pos htr]
      show (match parse_data (serialize_data (Json.obj (init_data reg acc.ns))) with
        | Except.error e => Except.error e
        | Except.ok parsed =>
          if validate_data reg acc.ns parsed then Except.ok ()
          else Except.error (KcError.validationError msgNotValid)) = _
      rw [hparse]
    have hcond : (!valsDataTruthy vals && !truthyStr acc.data) = true := by
      rw [hvd, had]
      rfl
    simp only [write]
    rw [if_pos hcond]
    show (match check_data reg
        { acc with data := some (serialize_data (Json.obj (init_data reg acc.ns))) } with
      | Except.ok _ =>
        Except.ok { acc with
          data := some (serialize_data (Json.obj (init_data reg acc.ns))) }
      | Except.error e => Except.error e) = _
    rw [hcheck]
    cases hval : validate_data reg acc.ns (Json.obj (init_data reg acc.ns))
    · simp [hval]
    · simp [hval]
  · intro h
    simp [init_data, h]
  · intro h
    simp [validate_data, h, default_validate_data]

/-- Claim C5 witness: with no handlers the both-empty write stores the empty
JSON object text; with a rejecting validator the same write fails while
validating the defaulted mapping. -/
theorem claim_c5_witness :
    write regEmpty accNoData valsAbsent
        = .ok { accNoData with data := some emptyObjText } ∧
    write regReject accNoData valsAbsent = .error (.validationError msgNotValid) :=
  ⟨((claim_c5_default_init regEmpty accNoData valsAbsent rfl rfl).1).trans rfl,
    ((claim_c5_default_init regReject accNoData valsAbsent rfl rfl).1).trans rfl⟩

/-- Claim C6: the data constraint on a record with non-empty parseable data
fails with the Data-not-valid validation error exactly when the selected
validator rejects the parsed value; the validator selected is the one
registered for the record namespace, and when none is registered the
default validator is used, which accepts every value. -/
theorem claim_c6_dispatch (reg : Registry) (acc : Account) (s : String) (v : Json)
    (hd : acc.data = some s) (hne : s ≠ "") (hj : json_loads s = some v) :
    (check_data reg acc
      = if validate_data reg acc.ns v then .ok ()
        else .error (.validationError msgNotValid)) ∧
    (∀ f, reg.validate acc.ns = some f → validate_data reg acc.ns v = f v) ∧
    (reg.validate acc.ns = none → validate_data reg acc.ns v = true) ∧
    msgNotValid = (r"Data not valid") := by
  have htr : truthyStr acc.data = true := by rw [hd]; simp [truthyStr, hne]
  have hparse : parse_data s = .ok v := by simp [parse_data, hj]
  refine ⟨?_, ?_, ?_, rfl⟩
  · simp only [check_data]
    rw [if_pos htr, hd]
    show (match parse_data s with
      | Except.error e => Except.error e
      | Except.ok parsed =>
        if validate_data reg acc.ns parsed then Except.ok ()
        else Except.error (.validationError msgNotValid)) = _
    rw [hparse]
  · intro f hf
    simp [validate_data, hf]
  · intro h0
    simp [validate_data, h0, default_validate_data]

/-- Claim C6 witness: the bar validator is dispatched for a bar record and
accepts its mapping data. -/
theorem claim_c6_witness :
    check_data regBar accBarObj = .ok () ∧
    validate_data regBar accBarObj.ns (.obj (.cons (String.mk ['a']) (.num 1) .nil))
      = Json.isObj (.obj (.cons (String.mk ['a']) (.num 1) .nil)) := by
  have h := claim_c6_dispatch regBar accBarObj jsonAB
    (.obj (.cons (String.mk ['a']) (.num 1) .nil)) rfl (by decide) rfl
  exact ⟨by rw [h.1]; rfl, h.2.1 _ rfl⟩

/-- Claim C7: when the stored ciphertext decrypts under none of the resolved
keys, password retrieval fails with the invalid-key error wrapped with the
account identification (login, name, technical name); that error is a
UserError and is a different value from every configuration and validation
error. -/
theorem claim_c7_invalid_key (cfg : Config) (acc : Account) (t : Token) (c : MultiFernet)
    (hp : acc.password = some t) (hc : get_cipher cfg none = .ok c)
    (hd : c.decrypt t = none) :
    get_password cfg acc
      = .error (.accountError .invalidKeyError acc.login acc.name acc.technical_name) ∧
    (∀ env, KcError.accountError .invalidKeyError acc.login acc.name acc.technical_name
      ≠ .configError env) ∧
    (∀ msg, KcError.accountError .invalidKeyError acc.login acc.name acc.technical_name
      ≠ .validationError msg) ∧
    KcError.isUserError .invalidKeyError = true := by
  have hdec : decode_password cfg (acc.password.getD ⟨r"", r""⟩)
      = .error .invalidKeyError := by
    rw [hp]
    show decode_password cfg t = _
    simp only [decode_password]
    rw [hc]
    show (match c.decrypt t with
      | some pt => Except.ok pt
      | none => Except.error KcError.invalidKeyError) = _
    rw [hd]
  refine ⟨?_, ?_, ?_, rfl⟩
  · simp only [get_password]
    rw [hdec]
    rfl
  · intro env h
    simp at h
  · intro msg h
    simp at h

/-- Claim C7 witness: a password under an unknown key surfaces the wrapped
invalid-key error with the account identification. -/
theorem claim_c7_witness :
    get_password cfg1 accTok
      = .error (.accountError .invalidKeyError accTok.login accTok.name
          accTok.technical_name) :=
  (claim_c7_invalid_key cfg1 accTok tokOther ⟨[Fernet.mk (r"K1")]⟩ rfl rfl rfl).1

/-- Claim C8: retrieve appends the current-environment filter to the caller
domain before searching, so a record is returned exactly when it satisfies
the caller domain and its environment slot is among the current
environments. -/
theorem claim_c8_retrieve_filter (cfg : Config) (accs : List Account)
    (domain : List DomClause) (a : Account) :
    a ∈ retrieve cfg accs domain
      ↔ (a ∈ search accs domain ∧ a.environment ∈ retrieve_env cfg) := by
  unfold retrieve search
  simp [List.mem_filter, List.all_append, matchesClause, and_assoc]

/-- Claim C9: parsing malformed text fails with the valid-JSON validation
error, and parsing the serialization of any mapping returns that mapping. -/
theorem claim_c9_metadata_codec :
    parse_data (String.mk (lbrace :: (r"not json").data))
        = .error (.validationError msgJson) ∧
    (∀ kvs : JsonMembers, parse_data (serialize_data (.obj kvs)) = .ok (.obj kvs)) := by
  constructor
  · rfl
  · intro kvs
    simp only [parse_data]
    rw [json_loads_serialize]

/-- Claim C10: the data constraint on a record whose data is empty returns
successfully for every registry, performing no parsing and no namespace
validation. -/
theorem claim_c10_empty_data (reg : Registry) (acc : Account)
    (h : truthyStr acc.data = false) :
    check_data reg acc = .ok () := by
  simp [check_data, h]

/-- Claim C10 witness: a record without data passes the constraint. -/
theorem claim_c10_witness :
    truthyStr accNoData.data = false ∧ check_data regEmpty accNoData = .ok () :=
  ⟨rfl, claim_c10_empty_data regEmpty accNoData rfl⟩

end Keychain
